import Mathlib

/-!
Verification of the rosqa-generator core: the rospec parser (`rospec_loader.py`),
the effective-binding resolver and the connectivity engine (`questions.py`).

Strings are modelled as `List Char` (`Str`), Python dicts as insertion-ordered
association lists with overwrite-in-place insertion (`dict_insert`) and
first-match lookup (`dict_get`), and Python regex scanning as fueled
left-to-right scanners that try a hand-written recognizer of the same pattern
at every position (`scan_all` / `scan_first`), mirroring `re.finditer` /
`re.search` leftmost-match semantics.  Fields of the Python data model that no
verified property mentions (parameter definitions, contexts, attachments, TF
edges, QoS policies, type/message aliases, where-blocks) are omitted from the
embedded `NodeType`/`Graph`; the parser passes that populate them are
independent `finditer` passes in the source and do not interact with the
embedded fields.
-/

set_option autoImplicit false

namespace Rosqa

/-- Strings of the modelled program: lists of characters. -/
abbrev Str := List Char

/-- Python `\s` (ASCII whitespace): space, tab, newline, carriage return,
vertical tab, form feed. -/
def is_ws (c : Char) : Bool :=
  c = ' ' || c = '\t' || c = '\n' || c = '\r' || c = Char.ofNat 11 || c = Char.ofNat 12

/-- Python `\w` (ASCII word character): alphanumeric or underscore. -/
def is_word (c : Char) : Bool :=
  c.isAlphanum || c = '_'

/-- The double-quote character. -/
def dquote : Char := Char.ofNat 34

/-- The single-quote character. -/
def squote : Char := Char.ofNat 39

/-- The opening-brace character. -/
def obrace : Char := Char.ofNat 123

/-- The closing-brace character. -/
def cbrace : Char := Char.ofNat 125

/-- Python `str.strip()`: drop leading and trailing whitespace. -/
def trim_str (s : Str) : Str :=
  ((s.dropWhile is_ws).reverse.dropWhile is_ws).reverse

/-- First-match lookup in an association list, as in a Python dict
(`d[k]` / `k in d` / `d.get(k)`). -/
def dict_get {α : Type} : List (Str × α) → Str → Option α
  | [], _ => none
  | (k', v) :: rest, k => if k' = k then some v else dict_get rest k

/-- Python dict assignment `d[k] = v`: overwrite in place if the key exists,
otherwise append at the end (insertion order preserved). -/
def dict_insert {α : Type} (k : Str) (v : α) : List (Str × α) → List (Str × α)
  | [] => [(k, v)]
  | (k', v') :: rest => if k' = k then (k, v) :: rest else (k', v') :: dict_insert k v rest

/-- `Topic` of `model.py`: a name and an optional type. -/
structure Topic where
  name : Str
  type : Option Str
deriving DecidableEq

/-- `Service` of `model.py`: a name and an optional type. -/
structure Service where
  name : Str
  type : Option Str
deriving DecidableEq

/-- `ParameterAssign` of `model.py`. -/
structure ParameterAssign where
  name : Str
  value : Str
deriving DecidableEq

/-- `Remap` of `model.py`: rewrite an endpoint name `frm` to `dst` (the
source field is called `to`, a reserved word in Lean). -/
structure Remap where
  frm : Str
  dst : Str
deriving DecidableEq

/-- `NodeType` of `model.py`, restricted to the communication fields the
verified claims are about.  The `consumes_content_services` triples are stored
as `("<content>", param_name, declared_type)` exactly as the loader stores
them. -/
structure NodeType where
  name : Str
  publishes : List (Str × Option Str)
  subscribes : List (Str × Option Str)
  provides : List (Str × Option Str)
  uses : List (Str × Option Str)
  consumes_content_services : List (Str × Str × Option Str)
deriving DecidableEq

/-- `Node` of `model.py`: a node instance with its type, parameter
assignments and remaps (context assignments are not used by any claim). -/
structure Node where
  name : Str
  node_type : NodeType
  param_assigns : List (Str × ParameterAssign)
  remaps : List Remap
deriving DecidableEq

/-- `Graph` of `model.py`, restricted to the entity maps the claims mention. -/
structure Graph where
  nodes : List (Str × Node)
  node_types : List (Str × NodeType)
  topics : List (Str × Topic)
  services : List (Str × Service)
deriving DecidableEq

/-- `_strip_quotes` quote test: length at least two and the first and last
characters are the same quote character. -/
def is_quoted (t : Str) : Bool :=
  match t with
  | [] => false
  | [_] => false
  | c :: rest => (c = dquote || c = squote) && rest.getLast? = some c

/-- `_strip_quotes` of `questions.py`: strip whitespace, then remove one pair
of matching surrounding quotes if present. -/
def strip_quotes (s : Str) : Str :=
  let t := trim_str s
  if is_quoted t then (t.drop 1).dropLast else t

/-- Literal matching: if `pre` is a prefix of `s`, return the remaining
suffix. -/
def drop_lit : Str → Str → Option Str
  | [], s => some s
  | _ :: _, [] => none
  | c :: cs, d :: ds => if d = c then drop_lit cs ds else none

/-- `_maybe_content_param` of `questions.py`: the regex
`^content\((\w+)\)$` applied to the stripped name; returns the captured
parameter name. -/
def maybe_content_param (s : Str) : Option Str :=
  let t := trim_str s
  match drop_lit "content(".data t with
  | none => none
  | some r =>
    let w := r.takeWhile is_word
    let rest := r.dropWhile is_word
    if w ≠ [] ∧ rest = [')'] then some w else none

/-- The literal placeholder `content(<param>)` built by `_effective_uses`
(Python `f"content({param_name})"`). -/
def content_ph (p : Str) : Str :=
  "content(".data ++ p ++ [')']

/-- `_resolve_content_name` of `questions.py`: if the raw name is
`content(PARAM)` and the instance assigns `PARAM`, substitute the assigned
value with quotes stripped; otherwise return the raw name unchanged. -/
def resolve_content_name (raw : Str) (n : Node) : Str :=
  match maybe_content_param raw with
  | none => raw
  | some p =>
    match dict_get n.param_assigns p with
    | some a => strip_quotes a.value
    | none => raw

/-- First-match rewriting over a remap list (the loop body of
`_apply_remaps`). -/
def apply_remap_list : List Remap → Str → Str
  | [], name => name
  | r :: rs, name => if r.frm = name then r.dst else apply_remap_list rs name

/-- `_apply_remaps` of `questions.py`: apply the instance's remaps, first
match wins. -/
def apply_remaps (name : Str) (n : Node) : Str :=
  apply_remap_list n.remaps name

/-- `_effective_publishes` of `questions.py`: resolve content indirection,
then apply remaps, for every declared publish pair. -/
def effective_publishes (n : Node) : List Str :=
  n.node_type.publishes.map (fun pr => apply_remaps (resolve_content_name pr.1 n) n)

/-- `_effective_subscribes` of `questions.py`. -/
def effective_subscribes (n : Node) : List Str :=
  n.node_type.subscribes.map (fun pr => apply_remaps (resolve_content_name pr.1 n) n)

/-- `_effective_provides` of `questions.py`. -/
def effective_provides (n : Node) : List Str :=
  n.node_type.provides.map (fun pr => apply_remaps (resolve_content_name pr.1 n) n)

/-- The contribution of one `consumes_content_services` triple to
`_effective_uses`: the resolved and remapped assigned value if the parameter
is assigned, the literal placeholder `content(<param>)` otherwise. -/
def consumes_contribution (n : Node) (tr : Str × Str × Option Str) : Str :=
  match dict_get n.param_assigns tr.2.1 with
  | some a => apply_remaps (strip_quotes a.value) n
  | none => content_ph tr.2.1

/-- `_effective_uses` of `questions.py`: explicit `uses service` names
(content-resolved then remapped) plus one contribution per
`consumes_content_services` triple. -/
def effective_uses (n : Node) : List Str :=
  n.node_type.uses.map (fun pr => apply_remaps (resolve_content_name pr.1 n) n)
    ++ n.node_type.consumes_content_services.map (consumes_contribution n)

/-- Nonemptiness of the intersection of two name sets (`src_pub & dst_sub`
in `_build_adjacency`). -/
def inter_nonempty (xs ys : List Str) : Bool :=
  xs.any (fun x => ys.any (fun y => decide (y = x)))

/-- Adjacency lookup with a default empty neighbour set
(`adj.get(cur, set())`). -/
def adj_get (adj : List (Str × List Str)) (k : Str) : List Str :=
  (dict_get adj k).getD []

/-- `adj[k].add(x)`: append `x` to the neighbour set of `k` unless already
present.  The key is always present when this is reached in the source
(the adjacency dict is initialised with every node name); on a missing key
the model leaves the dict unchanged. -/
def adj_add (adj : List (Str × List Str)) (k x : Str) : List (Str × List Str) :=
  match adj with
  | [] => []
  | (k', xs) :: rest =>
    if k' = k then (k', if x ∈ xs then xs else xs ++ [x]) :: rest
    else (k', xs) :: adj_add rest k x

/-- The inner loop of the topic pass of `_build_adjacency`: add `src → dst`
for every distinct `dst` whose effective subscriptions meet `src_pub`. -/
def topic_inner (src : Node) (src_pub : List Str) (adj : List (Str × List Str))
    (dsts : List Node) : List (Str × List Str) :=
  dsts.foldl (fun adj dst =>
    if src.name = dst.name then adj
    else if inter_nonempty src_pub (effective_subscribes dst) then adj_add adj src.name dst.name
    else adj) adj

/-- The inner loop of the service pass of `_build_adjacency`: add both
`client → server` and `server → client` for every distinct server whose
effective provides meet `client_uses`. -/
def service_inner (client : Node) (client_uses : List Str) (adj : List (Str × List Str))
    (servers : List Node) : List (Str × List Str) :=
  servers.foldl (fun adj server =>
    if server.name = client.name then adj
    else if inter_nonempty client_uses (effective_provides server) then
      adj_add (adj_add adj client.name server.name) server.name client.name
    else adj) adj

/-- The initial adjacency of `_build_adjacency`: every node name (a key of
`graph.nodes`) mapped to an empty neighbour set. -/
def adj_init (g : Graph) : List (Str × List Str) :=
  g.nodes.map (fun pr => (pr.1, []))

/-- `nodes = list(graph.nodes.values())`. -/
def node_vals (g : Graph) : List Node :=
  g.nodes.map (fun pr => pr.2)

/-- The topic pass of `_build_adjacency`: for every source with nonempty
effective publishes, run the inner loop over all candidate subscribers. -/
def topic_pass (vals : List Node) (adj : List (Str × List Str)) : List (Str × List Str) :=
  vals.foldl (fun adj src =>
    if effective_publishes src = [] then adj
    else topic_inner src (effective_publishes src) adj vals) adj

/-- The service pass of `_build_adjacency`: for every client with nonempty
effective uses, run the inner loop over all candidate servers. -/
def service_pass (vals : List Node) (adj : List (Str × List Str)) : List (Str × List Str) :=
  vals.foldl (fun adj client =>
    if effective_uses client = [] then adj
    else service_inner client (effective_uses client) adj vals) adj

/-- `_build_adjacency` of `questions.py`: initialise every node name with an
empty neighbour set, then the topic pass (publisher → subscriber) followed by
the service pass (client ↔ server). -/
def build_adjacency (g : Graph) : List (Str × List Str) :=
  service_pass (node_vals g) (topic_pass (node_vals g) (adj_init g))

/-- Sequentially enqueue the neighbours of the current node that are not yet
visited (the inner `for nxt in adj.get(cur, set())` loop of the BFS). -/
def enqueue_all (visited queue : List Str) : List Str → List Str × List Str
  | [] => (visited, queue)
  | x :: xs =>
    if x ∈ visited then enqueue_all visited queue xs
    else enqueue_all (visited ++ [x]) (queue ++ [x]) xs

/-- The BFS loop of `_has_communication_path`: pop the queue head, answer
true if the destination is among its neighbours, otherwise enqueue the
unvisited neighbours.  The fuel bounds the number of pops; it never runs out
with the bound chosen in `has_communication_path` because every enqueued name
is distinct. -/
def bfs_loop (adj : List (Str × List Str)) (dst : Str) :
    Nat → List Str → List Str → Bool
  | 0, _, _ => false
  | _ + 1, _, [] => false
  | fuel + 1, visited, cur :: rest =>
    let ns := adj_get adj cur
    if dst ∈ ns then true
    else
      let vq := enqueue_all visited rest ns
      bfs_loop adj dst fuel vq.1 vq.2

/-- `_has_communication_path` of `questions.py`: false on `src == dst`,
otherwise breadth-first search over the freshly built adjacency. -/
def has_communication_path (src dst : Str) (g : Graph) : Bool :=
  if src = dst then false
  else bfs_loop (build_adjacency g) dst (g.nodes.length + 1) [src] [src]

/-- Skip to the end of the current line, keeping the newline itself
(the regex `//.*?$` with MULTILINE replaces up to, not including, the
newline). -/
def drop_to_eol : Str → Str
  | [] => []
  | c :: r => if c = '\n' then c :: r else drop_to_eol r

/-- `_strip_comments` of `rospec_loader.py`: delete every `//` comment up to
the end of its line.  Fueled; the fuel `length + 1` used by `preprocess` never
runs out because every step consumes at least one character. -/
def strip_comments : Nat → Str → Str
  | 0, s => s
  | _ + 1, [] => []
  | fuel + 1, c :: rest =>
    if c = '/' then
      match rest with
      | d :: rest2 =>
        if d = '/' then strip_comments fuel (drop_to_eol rest2)
        else c :: strip_comments fuel rest
      | [] => [c]
    else c :: strip_comments fuel rest

/-- Comment stripping as applied by `load_graph_from_rospec` before any
pattern matching. -/
def preprocess (raw : Str) : Str :=
  strip_comments (raw.length + 1) raw

/-- `\s+`: require at least one whitespace character, then skip the rest. -/
def drop_ws1 : Str → Option Str
  | [] => none
  | c :: rest => if is_ws c then some (rest.dropWhile is_ws) else none

/-- `\s*`: skip any whitespace. -/
def drop_ws0 (s : Str) : Str :=
  s.dropWhile is_ws

/-- Expect one specific character. -/
def expect_char (c : Char) : Str → Option Str
  | [] => none
  | d :: rest => if d = c then some rest else none

/-- `\w+` capture: a nonempty run of word characters. -/
def take_word (s : Str) : Option (Str × Str) :=
  let w := s.takeWhile is_word
  if w = [] then none else some (w, s.dropWhile is_word)

/-- `[\w/]+` capture: a nonempty run of word characters or slashes. -/
def take_word_slash (s : Str) : Option (Str × Str) :=
  let w := s.takeWhile (fun c => is_word c || c = '/')
  if w = [] then none else some (w, s.dropWhile (fun c => is_word c || c = '/'))

/-- `[^\s:]+` capture: a nonempty run of characters that are neither
whitespace nor a colon (endpoint names in the comm statement patterns). -/
def take_endpoint (s : Str) : Option (Str × Str) :=
  let w := s.takeWhile (fun c => !is_ws c && c ≠ ':')
  if w = [] then none else some (w, s.dropWhile (fun c => !is_ws c && c ≠ ':'))

/-- `[^\s]+` capture: a nonempty run of non-whitespace characters. -/
def take_non_ws (s : Str) : Option (Str × Str) :=
  let w := s.takeWhile (fun c => !is_ws c)
  if w = [] then none else some (w, s.dropWhile (fun c => !is_ws c))

/-- `[^\s;]+` capture: a nonempty run of characters that are neither
whitespace nor a semicolon. -/
def take_non_ws_semi (s : Str) : Option (Str × Str) :=
  let w := s.takeWhile (fun c => !is_ws c && c ≠ ';')
  if w = [] then none else some (w, s.dropWhile (fun c => !is_ws c && c ≠ ';'))

/-- Split at the first occurrence of a character: the part before it and the
suffix after it (`(.*?)\}` and `[^;]+\s*;` shapes). -/
def split_at_char (ch : Char) : Str → Option (Str × Str)
  | [] => none
  | c :: cs =>
    if c = ch then some ([], cs)
    else match split_at_char ch cs with
      | none => none
      | some (a, b) => some (c :: a, b)

/-- `([^;]+)\s*;` followed by Python `.strip()` on the captured group: at
least one character before the next semicolon; the value returned is the
trimmed text between the current position and that semicolon. -/
def take_until_semi (s : Str) : Option (Str × Str) :=
  match split_at_char ';' s with
  | none => none
  | some (raw, rest) => if raw = [] then none else some (trim_str raw, rest)

/-- Python `group.strip() or None`: an empty trimmed capture becomes `None`. -/
def opt_of (t : Str) : Option Str :=
  if t = [] then none else some t

/-- `re.finditer`: return the results of the recognizer at every position,
scanning left to right and resuming after each match.  Fueled by the text
length; every recognizer used consumes at least one character. -/
def scan_all {α : Type} (try_at : Str → Option (α × Str)) : Nat → Str → List α
  | 0, _ => []
  | _ + 1, [] => []
  | fuel + 1, c :: rest =>
    match try_at (c :: rest) with
    | some (a, s2) => a :: scan_all try_at fuel s2
    | none => scan_all try_at fuel rest

/-- `re.search`: the leftmost match only. -/
def scan_first {α : Type} (try_at : Str → Option (α × Str)) : Nat → Str → Option α
  | 0, _ => none
  | _ + 1, [] => none
  | fuel + 1, c :: rest =>
    match try_at (c :: rest) with
    | some (a, _) => some a
    | none => scan_first try_at fuel rest

/-- `COMM_PUBLISH_RE`: `publishes\s+to\s+([^\s:]+)\s*:\s*([^;]+)\s*;` with the
type group stripped and empty mapped to `None`. -/
def try_publish_at (s : Str) : Option ((Str × Option Str) × Str) := do
  let s ← drop_lit "publishes".data s
  let s ← drop_ws1 s
  let s ← drop_lit "to".data s
  let s ← drop_ws1 s
  let (nm, s) ← take_endpoint s
  let s := drop_ws0 s
  let s ← expect_char ':' s
  let (ty, s) ← take_until_semi s
  return ((nm, opt_of ty), s)

/-- `COMM_SUBSCRIBE_RE`: `subscribes\s+to\s+([^\s:]+)\s*:\s*([^;]+)\s*;`. -/
def try_subscribe_at (s : Str) : Option ((Str × Option Str) × Str) := do
  let s ← drop_lit "subscribes".data s
  let s ← drop_ws1 s
  let s ← drop_lit "to".data s
  let s ← drop_ws1 s
  let (nm, s) ← take_endpoint s
  let s := drop_ws0 s
  let s ← expect_char ':' s
  let (ty, s) ← take_until_semi s
  return ((nm, opt_of ty), s)

/-- `COMM_PROVIDES_RE`: `provides\s+service\s+([^\s:]+)\s*:\s*([^;]+)\s*;`. -/
def try_provides_at (s : Str) : Option ((Str × Option Str) × Str) := do
  let s ← drop_lit "provides".data s
  let s ← drop_ws1 s
  let s ← drop_lit "service".data s
  let s ← drop_ws1 s
  let (nm, s) ← take_endpoint s
  let s := drop_ws0 s
  let s ← expect_char ':' s
  let (ty, s) ← take_until_semi s
  return ((nm, opt_of ty), s)

/-- `COMM_USES_RE`: `uses\s+service\s+([^\s:]+)\s*:\s*([^;]+)\s*;`. -/
def try_uses_at (s : Str) : Option ((Str × Option Str) × Str) := do
  let s ← drop_lit "uses".data s
  let s ← drop_ws1 s
  let s ← drop_lit "service".data s
  let s ← drop_ws1 s
  let (nm, s) ← take_endpoint s
  let s := drop_ws0 s
  let s ← expect_char ':' s
  let (ty, s) ← take_until_semi s
  return ((nm, opt_of ty), s)

/-- `COMM_CONSUMES_CONTENT_RE`:
`consumes\s+service\s+content\((\w+)\)\s*:\s*([^;]+)\s*;`. -/
def try_consumes_at (s : Str) : Option ((Str × Option Str) × Str) := do
  let s ← drop_lit "consumes".data s
  let s ← drop_ws1 s
  let s ← drop_lit "service".data s
  let s ← drop_ws1 s
  let s ← drop_lit "content(".data s
  let (p, s) ← take_word s
  let s ← expect_char ')' s
  let s := drop_ws0 s
  let s ← expect_char ':' s
  let (ty, s) ← take_until_semi s
  return ((p, opt_of ty), s)

/-- `PARAM_ASSIGN_RE`: `param\s+([\w/]+)\s*=\s*([^;]+)\s*;` with the value
stripped (an all-whitespace value strips to the empty string). -/
def try_param_assign_at (s : Str) : Option ((Str × Str) × Str) := do
  let s ← drop_lit "param".data s
  let s ← drop_ws1 s
  let (k, s) ← take_word_slash s
  let s := drop_ws0 s
  let s ← expect_char '=' s
  let (v, s) ← take_until_semi s
  return ((k, v), s)

/-- `REMAP_RE`: `remap\s+([^\s]+)\s+to\s+([^\s;]+)\s*;`. -/
def try_remap_at (s : Str) : Option ((Str × Str) × Str) := do
  let s ← drop_lit "remap".data s
  let s ← drop_ws1 s
  let (f, s) ← take_non_ws s
  let s ← drop_ws1 s
  let s ← drop_lit "to".data s
  let s ← drop_ws1 s
  let (t, s) ← take_non_ws_semi s
  let s := drop_ws0 s
  let s ← expect_char ';' s
  return ((f, t), s)

/-- The optional tail `\s*(?:where\s*\{(.*?)\}\s*)?` of `NODE_TYPE_BLOCK_RE`:
if a where-block follows, the match resumes after it (its text is not used by
any claim); otherwise the position is unchanged. -/
def try_where_tail (s : Str) : Option Str := do
  let s2 := drop_ws0 s
  let s2 ← drop_lit "where".data s2
  let s2 := drop_ws0 s2
  let s2 ← expect_char obrace s2
  let (_, s2) ← split_at_char cbrace s2
  return s2

/-- `NODE_TYPE_BLOCK_RE`:
`node\s+type\s+(\w+)\s*\{(.*?)\}\s*(?:where\s*\{(.*?)\}\s*)?` — the body is
the text up to the first closing brace (non-greedy). -/
def try_node_type_at (s : Str) : Option ((Str × Str) × Str) := do
  let s ← drop_lit "node".data s
  let s ← drop_ws1 s
  let s ← drop_lit "type".data s
  let s ← drop_ws1 s
  let (nm, s) ← take_word s
  let s := drop_ws0 s
  let s ← expect_char obrace s
  let (body, s) ← split_at_char cbrace s
  let rest := match try_where_tail s with
    | some s2 => s2
    | none => s
  return ((nm, body), rest)

/-- `SYSTEM_BLOCK_RE`: `system\s*\{(.*?)\}`. -/
def try_system_at (s : Str) : Option (Str × Str) := do
  let s ← drop_lit "system".data s
  let s := drop_ws0 s
  let s ← expect_char obrace s
  let (body, s) ← split_at_char cbrace s
  return (body, s)

/-- `NODE_INSTANCE_BLOCK_RE`:
`node\s+instance\s+(\w+)\s*:\s*(\w+)\s*\{(.*?)\}`. -/
def try_instance_at (s : Str) : Option ((Str × Str × Str) × Str) := do
  let s ← drop_lit "node".data s
  let s ← drop_ws1 s
  let s ← drop_lit "instance".data s
  let s ← drop_ws1 s
  let (nm, s) ← take_word s
  let s := drop_ws0 s
  let s ← expect_char ':' s
  let s := drop_ws0 s
  let (ty, s) ← take_word s
  let s := drop_ws0 s
  let s ← expect_char obrace s
  let (body, s) ← split_at_char cbrace s
  return ((nm, ty, body), s)

/-- All `publishes to` declarations of a node-type body, in text order. -/
def pub_decls (body : Str) : List (Str × Option Str) :=
  scan_all try_publish_at (body.length + 1) body

/-- All `subscribes to` declarations of a node-type body. -/
def sub_decls (body : Str) : List (Str × Option Str) :=
  scan_all try_subscribe_at (body.length + 1) body

/-- All `provides service` declarations of a node-type body. -/
def prov_decls (body : Str) : List (Str × Option Str) :=
  scan_all try_provides_at (body.length + 1) body

/-- All `uses service` declarations of a node-type body. -/
def use_decls (body : Str) : List (Str × Option Str) :=
  scan_all try_uses_at (body.length + 1) body

/-- All `consumes service content(...)` declarations of a node-type body. -/
def consumes_decls (body : Str) : List (Str × Option Str) :=
  scan_all try_consumes_at (body.length + 1) body

/-- Build one `NodeType` from a block, as `_parse_node_types` does: each
statement kind is an independent pass over the body; consumes triples are
stored as `("<content>", param, type)`. -/
def parse_node_type_block (nm body : Str) : NodeType :=
  { name := nm
    publishes := pub_decls body
    subscribes := sub_decls body
    provides := prov_decls body
    uses := use_decls body
    consumes_content_services :=
      (consumes_decls body).map (fun pr => ("<content>".data, pr.1, pr.2)) }

/-- All `node type` blocks of the (comment-stripped) text, in text order. -/
def node_type_blocks (text : Str) : List (Str × Str) :=
  scan_all try_node_type_at (text.length + 1) text

/-- The `node_types` map built by `_parse_node_types`
(`g.node_types[name] = nt`, later blocks overwrite earlier ones). -/
def parse_node_types (text : Str) : List (Str × NodeType) :=
  (node_type_blocks text).foldl
    (fun d pr => dict_insert pr.1 (parse_node_type_block pr.1 pr.2) d) []

/-- The topic registration events of `_parse_node_types`, in processing
order: blocks in text order, and within a block all `publishes` matches
before all `subscribes` matches. -/
def topic_events (text : Str) : List (Str × Option Str) :=
  ((node_type_blocks text).map (fun pr => pub_decls pr.2 ++ sub_decls pr.2)).flatten

/-- The service registration events of `_parse_node_types`: per block all
`provides` matches before all `uses` matches (`consumes` does not register a
service). -/
def service_events (text : Str) : List (Str × Option Str) :=
  ((node_type_blocks text).map (fun pr => prov_decls pr.2 ++ use_decls pr.2)).flatten

/-- `if topic not in g.topics: g.topics[topic] = Topic(...)` — insert only
when the name is absent. -/
def insert_topic (d : List (Str × Topic)) (e : Str × Option Str) : List (Str × Topic) :=
  if (dict_get d e.1).isSome then d else d ++ [(e.1, ⟨e.1, e.2⟩)]

/-- `if srv not in g.services: g.services[srv] = Service(...)`. -/
def insert_service (d : List (Str × Service)) (e : Str × Option Str) : List (Str × Service) :=
  if (dict_get d e.1).isSome then d else d ++ [(e.1, ⟨e.1, e.2⟩)]

/-- The `topics` map after parsing: the fold of insert-if-absent over the
topic events. -/
def topics_of (text : Str) : List (Str × Topic) :=
  (topic_events text).foldl insert_topic []

/-- The `services` map after parsing. -/
def services_of (text : Str) : List (Str × Service) :=
  (service_events text).foldl insert_service []

/-- The body of the first `system { ... }` block, if any
(`SYSTEM_BLOCK_RE.search`). -/
def system_body_of (text : Str) : Option Str :=
  scan_first try_system_at (text.length + 1) text

/-- The `node instance` blocks inside the system body as
`(name, type_name, body)` triples; an absent system block yields none
(`_parse_system_instances` returns immediately). -/
def instance_blocks_of (text : Str) : List (Str × Str × Str) :=
  match system_body_of text with
  | none => []
  | some body => scan_all try_instance_at (body.length + 1) body

/-- The `param_assigns` dict of one instance body
(`node.param_assigns[key] = ParameterAssign(key, val)`). -/
def parse_param_assigns (body : Str) : List (Str × ParameterAssign) :=
  (scan_all try_param_assign_at (body.length + 1) body).foldl
    (fun d pr => dict_insert pr.1 ⟨pr.1, pr.2⟩ d) []

/-- The `remaps` list of one instance body, in declaration order. -/
def parse_remaps (body : Str) : List Remap :=
  (scan_all try_remap_at (body.length + 1) body).map (fun pr => ⟨pr.1, pr.2⟩)

/-- The instance loop of `_parse_system_instances`: look the referenced type
up among the already-parsed node types; on a miss skip the instance entirely,
otherwise build the `Node` and store it under its name. -/
def build_nodes (nts : List (Str × NodeType)) (blocks : List (Str × Str × Str)) :
    List (Str × Node) :=
  blocks.foldl (fun d blk =>
    match dict_get nts blk.2.1 with
    | none => d
    | some nt =>
      dict_insert blk.1 ⟨blk.1, nt, parse_param_assigns blk.2.2, parse_remaps blk.2.2⟩ d) []

/-- `load_graph_from_rospec` of `rospec_loader.py`, on the raw specification
text (reading the file is the caller's I/O): strip comments, parse node types,
then resolve system instances against them. -/
def load_graph_from_rospec (raw : Str) : Graph :=
  let text := preprocess raw
  let nts := parse_node_types text
  { nodes := build_nodes nts (instance_blocks_of text)
    node_types := nts
    topics := topics_of text
    services := services_of text }

/-- The first registration event for a given name, packaged by `mk`. -/
def first_entity_for {β : Type} (mk : Str → Option Str → β) (T : Str) :
    List (Str × Option Str) → Option β
  | [] => none
  | e :: rest => if e.1 = T then some (mk e.1 e.2) else first_entity_for mk T rest

/-- The first topic registration event for a given name, as a `Topic`. -/
def first_topic_for (T : Str) (events : List (Str × Option Str)) : Option Topic :=
  first_entity_for Topic.mk T events

/-- The first service registration event for a given name, as a `Service`. -/
def first_service_for (T : Str) (events : List (Str × Option Str)) : Option Service :=
  first_entity_for Service.mk T events

/-- The keyed-by-name representation invariant that Python dict construction
(`d[x.name] = x`) guarantees for the nodes map. -/
def nodes_keyed (g : Graph) : Prop :=
  ∀ pr ∈ g.nodes, pr.1 = pr.2.name

instance (g : Graph) : Decidable (nodes_keyed g) :=
  inferInstanceAs (Decidable (∀ pr ∈ g.nodes, pr.1 = pr.2.name))

section Lemmas

lemma dict_get_insert_ne {α : Type} (d : List (Str × α)) (k X : Str) (v : α)
    (h : k ≠ X) : dict_get (dict_insert k v d) X = dict_get d X := by
  induction d with
  | nil =>
    show dict_get [(k, v)] X = dict_get ([] : List (Str × α)) X
    simp only [dict_get, if_neg h]
  | cons hd tl ih =>
    obtain ⟨k', v'⟩ := hd
    simp only [dict_insert]
    by_cases hk : k' = k
    · rw [if_pos hk]
      subst hk
      simp only [dict_get]
      rw [if_neg h, if_neg h]
    · rw [if_neg hk]
      simp only [dict_get]
      by_cases hX : k' = X
      · rw [if_pos hX, if_pos hX]
      · rw [if_neg hX, if_neg hX]
        exact ih

lemma dict_get_eq_none_iff {α : Type} (d : List (Str × α)) (k : Str) :
    dict_get d k = none ↔ k ∉ d.map Prod.fst := by
  induction d with
  | nil =>
    simp only [dict_get, List.map_nil, List.not_mem_nil, not_false_iff, iff_true]
  | cons hd tl ih =>
    obtain ⟨k', v'⟩ := hd
    simp only [dict_get, List.map_cons, List.mem_cons]
    by_cases hk : k' = k
    · rw [if_pos hk]
      exact iff_of_false (Option.some_ne_none v') (fun h2 => h2 (Or.inl hk.symm))
    · rw [if_neg hk, ih]
      constructor
      · intro h1 h2
        rcases h2 with h2 | h2
        · exact hk h2.symm
        · exact h1 h2
      · intro h1 h2
        exact h1 (Or.inr h2)

lemma dict_get_append_single {α : Type} (d : List (Str × α)) (k T : Str) (v : α) :
    dict_get (d ++ [(k, v)]) T =
      match dict_get d T with
      | some w => some w
      | none => if k = T then some v else none := by
  induction d with
  | nil => simp [dict_get]
  | cons hd tl ih =>
    obtain ⟨k', v'⟩ := hd
    by_cases hk : k' = T
    · simp [dict_get, hk]
    · simp [dict_get, hk, ih]

lemma drop_lit_self (pre s : Str) : drop_lit pre (pre ++ s) = some s := by
  induction pre with
  | nil => simp [drop_lit]
  | cons c cs ih => simp [drop_lit, ih]

lemma content_ph_inj {p q : Str} (h : content_ph p = content_ph q) : p = q := by
  unfold content_ph at h
  rw [List.append_assoc, List.append_assoc] at h
  exact List.append_cancel_right (List.append_cancel_left h)

lemma is_word_not_ws {c : Char} (h : is_word c = true) : is_ws c = false := by
  by_contra hc
  have hws : is_ws c = true := by
    cases hb : is_ws c
    · exact absurd hb hc
    · rfl
  simp only [is_ws, Bool.or_eq_true, decide_eq_true_eq] at hws
  rcases hws with ((((h1 | h1) | h1) | h1) | h1) | h1 <;>
    · subst h1; simp [is_word] at h

lemma trim_str_eq_self (l : Str) (h : ∀ c ∈ l, is_ws c = false) :
    trim_str l = l := by
  have hdrop : ∀ (m : Str), (∀ c ∈ m, is_ws c = false) → m.dropWhile is_ws = m := by
    intro m hm
    cases m with
    | nil => rfl
    | cons c cs => simp [List.dropWhile, hm c (by simp)]
  unfold trim_str
  rw [hdrop l h]
  rw [hdrop l.reverse (by intro c hc; exact h c (List.mem_reverse.mp hc))]
  exact List.reverse_reverse l

lemma takeWhile_word_append (p : Str) (hw : ∀ c ∈ p, is_word c = true) :
    (p ++ [')']).takeWhile is_word = p ∧ (p ++ [')']).dropWhile is_word = [')'] := by
  induction p with
  | nil => simp [List.takeWhile, List.dropWhile, is_word]
  | cons c cs ih =>
    have hc : is_word c = true := hw c (by simp)
    have ihh := ih (fun d hd => hw d (by simp [hd]))
    simp [List.takeWhile, List.dropWhile, hc, ihh.1, ihh.2]

lemma maybe_content_param_ph (p : Str) (hne : p ≠ [])
    (hw : ∀ c ∈ p, is_word c = true) :
    maybe_content_param (content_ph p) = some p := by
  have hall : ∀ c ∈ content_ph p, is_ws c = false := by
    intro c hc
    unfold content_ph at hc
    rcases List.mem_append.mp hc with hc1 | hc2
    · rcases List.mem_append.mp hc1 with hc3 | hc4
      · fin_cases hc3 <;> rfl
      · exact is_word_not_ws (hw c hc4)
    · simp only [List.mem_singleton] at hc2
      subst hc2; rfl
  have hsplit : content_ph p = "content(".data ++ (p ++ [')']) := by
    simp [content_ph, List.append_assoc]
  unfold maybe_content_param
  rw [trim_str_eq_self _ hall]
  simp only [hsplit, drop_lit_self, (takeWhile_word_append p hw).1,
    (takeWhile_word_append p hw).2]
  simp [hne]

lemma apply_remap_list_no_match (rs : List Remap) (name : Str)
    (h : ∀ r ∈ rs, r.frm ≠ name) : apply_remap_list rs name = name := by
  induction rs with
  | nil => rfl
  | cons r rest ih =>
    simp only [apply_remap_list, if_neg (h r (by simp))]
    exact ih (fun r' hr' => h r' (by simp [hr']))

lemma inter_nonempty_of_mem {xs ys : List Str} {s : Str}
    (hx : s ∈ xs) (hy : s ∈ ys) : inter_nonempty xs ys = true := by
  unfold inter_nonempty
  rw [List.any_eq_true]
  exact ⟨s, hx, by rw [List.any_eq_true]; exact ⟨s, hy, by simp⟩⟩

lemma adj_get_cons (k0 : Str) (xs : List Str) (tl : List (Str × List Str)) (k : Str) :
    adj_get ((k0, xs) :: tl) k = if k0 = k then xs else adj_get tl k := by
  unfold adj_get
  simp only [dict_get]
  by_cases hk : k0 = k
  · rw [if_pos hk, if_pos hk]
    rfl
  · rw [if_neg hk, if_neg hk]

lemma adj_add_keys (adj : List (Str × List Str)) (k x : Str) :
    (adj_add adj k x).map Prod.fst = adj.map Prod.fst := by
  induction adj with
  | nil => rfl
  | cons hd tl ih =>
    obtain ⟨k0, xs⟩ := hd
    simp only [adj_add]
    by_cases h0 : k0 = k
    · rw [if_pos h0]
      simp only [List.map_cons]
    · rw [if_neg h0]
      simp only [List.map_cons, ih]

lemma mem_adj_get_add {adj : List (Str × List Str)} {k x : Str} (k' y : Str)
    (h : x ∈ adj_get adj k) : x ∈ adj_get (adj_add adj k' y) k := by
  induction adj with
  | nil => exact h
  | cons hd tl ih =>
    obtain ⟨k0, xs⟩ := hd
    simp only [adj_add]
    by_cases h0 : k0 = k'
    · rw [if_pos h0]
      rw [adj_get_cons] at h ⊢
      by_cases hk : k0 = k
      · rw [if_pos hk] at h ⊢
        by_cases hy : y ∈ xs
        · rw [if_pos hy]
          exact h
        · rw [if_neg hy]
          exact List.mem_append_left _ h
      · rw [if_neg hk] at h ⊢
        exact h
    · rw [if_neg h0]
      rw [adj_get_cons] at h ⊢
      by_cases hk : k0 = k
      · rw [if_pos hk] at h ⊢
        exact h
      · rw [if_neg hk] at h ⊢
        exact ih h

lemma adj_get_add_self {adj : List (Str × List Str)} {k : Str} (x : Str)
    (h : k ∈ adj.map Prod.fst) : x ∈ adj_get (adj_add adj k x) k := by
  induction adj with
  | nil => simp at h
  | cons hd tl ih =>
    obtain ⟨k0, xs⟩ := hd
    simp only [adj_add]
    by_cases h0 : k0 = k
    · rw [if_pos h0, adj_get_cons, if_pos h0]
      by_cases hy : x ∈ xs
      · rw [if_pos hy]
        exact hy
      · rw [if_neg hy]
        exact List.mem_append_right _ (by simp)
    · rw [if_neg h0, adj_get_cons, if_neg h0]
      apply ih
      simp only [List.map_cons, List.mem_cons] at h
      rcases h with h | h
      · exact absurd h.symm h0
      · exact h

lemma adj_get_of_not_key (adj : List (Str × List Str)) (k : Str)
    (h : k ∉ adj.map Prod.fst) : adj_get adj k = [] := by
  unfold adj_get
  rw [(dict_get_eq_none_iff adj k).mpr h]
  rfl

lemma foldl_mem_pres {β : Type} (step : List (Str × List Str) → β → List (Str × List Str))
    (hstep : ∀ adj b k x, x ∈ adj_get adj k → x ∈ adj_get (step adj b) k)
    (l : List β) (adj : List (Str × List Str)) (k x : Str) (h : x ∈ adj_get adj k) :
    x ∈ adj_get (l.foldl step adj) k := by
  induction l generalizing adj with
  | nil => exact h
  | cons b bs ih => exact ih _ (hstep adj b k x h)

lemma foldl_keys_pres {β : Type} (step : List (Str × List Str) → β → List (Str × List Str))
    (hstep : ∀ adj b, (step adj b).map Prod.fst = adj.map Prod.fst)
    (l : List β) (adj : List (Str × List Str)) :
    (l.foldl step adj).map Prod.fst = adj.map Prod.fst := by
  induction l generalizing adj with
  | nil => rfl
  | cons b bs ih => rw [List.foldl_cons, ih, hstep]

lemma topic_step_mem (src : Node) (sp : List Str) :
    ∀ adj (dst : Node) (k x : Str), x ∈ adj_get adj k →
      x ∈ adj_get (if src.name = dst.name then adj
        else if inter_nonempty sp (effective_subscribes dst) then adj_add adj src.name dst.name
        else adj) k := by
  intro adj dst k x h
  by_cases h1 : src.name = dst.name
  · rwa [if_pos h1]
  · rw [if_neg h1]
    by_cases h2 : inter_nonempty sp (effective_subscribes dst) = true
    · rw [if_pos h2]
      exact mem_adj_get_add _ _ h
    · rw [if_neg h2]
      exact h

lemma service_step_mem (c : Node) (cu : List Str) :
    ∀ adj (v : Node) (k x : Str), x ∈ adj_get adj k →
      x ∈ adj_get (if v.name = c.name then adj
        else if inter_nonempty cu (effective_provides v) then
          adj_add (adj_add adj c.name v.name) v.name c.name
        else adj) k := by
  intro adj v k x h
  by_cases h1 : v.name = c.name
  · rwa [if_pos h1]
  · rw [if_neg h1]
    by_cases h2 : inter_nonempty cu (effective_provides v) = true
    · rw [if_pos h2]
      exact mem_adj_get_add _ _ (mem_adj_get_add _ _ h)
    · rw [if_neg h2]
      exact h

lemma topic_step_keys (src : Node) (sp : List Str) :
    ∀ adj (dst : Node),
      (if src.name = dst.name then adj
        else if inter_nonempty sp (effective_subscribes dst) then adj_add adj src.name dst.name
        else adj).map Prod.fst = adj.map Prod.fst := by
  intro adj dst
  by_cases h1 : src.name = dst.name
  · rw [if_pos h1]
  · rw [if_neg h1]
    by_cases h2 : inter_nonempty sp (effective_subscribes dst) = true
    · rw [if_pos h2, adj_add_keys]
    · rw [if_neg h2]

lemma service_step_keys (c : Node) (cu : List Str) :
    ∀ adj (v : Node),
      (if v.name = c.name then adj
        else if inter_nonempty cu (effective_provides v) then
          adj_add (adj_add adj c.name v.name) v.name c.name
        else adj).map Prod.fst = adj.map Prod.fst := by
  intro adj v
  by_cases h1 : v.name = c.name
  · rw [if_pos h1]
  · rw [if_neg h1]
    by_cases h2 : inter_nonempty cu (effective_provides v) = true
    · rw [if_pos h2, adj_add_keys, adj_add_keys]
    · rw [if_neg h2]

lemma topic_inner_mem (src : Node) (sp : List Str) (vals : List Node)
    (adj : List (Str × List Str)) (k x : Str) (h : x ∈ adj_get adj k) :
    x ∈ adj_get (topic_inner src sp adj vals) k :=
  foldl_mem_pres _ (topic_step_mem src sp) vals adj k x h

lemma topic_inner_keys (src : Node) (sp : List Str) (vals : List Node)
    (adj : List (Str × List Str)) :
    (topic_inner src sp adj vals).map Prod.fst = adj.map Prod.fst :=
  foldl_keys_pres _ (topic_step_keys src sp) vals adj

lemma service_inner_mem (c : Node) (cu : List Str) (vals : List Node)
    (adj : List (Str × List Str)) (k x : Str) (h : x ∈ adj_get adj k) :
    x ∈ adj_get (service_inner c cu adj vals) k :=
  foldl_mem_pres _ (service_step_mem c cu) vals adj k x h

lemma service_inner_keys (c : Node) (cu : List Str) (vals : List Node)
    (adj : List (Str × List Str)) :
    (service_inner c cu adj vals).map Prod.fst = adj.map Prod.fst :=
  foldl_keys_pres _ (service_step_keys c cu) vals adj

lemma topic_inner_adds (src : Node) (sp : List Str) (vals : List Node)
    (adj : List (Str × List Str)) (dst : Node) (hdst : dst ∈ vals)
    (hne : src.name ≠ dst.name)
    (hint : inter_nonempty sp (effective_subscribes dst) = true)
    (hkey : src.name ∈ adj.map Prod.fst) :
    dst.name ∈ adj_get (topic_inner src sp adj vals) src.name := by
  induction vals generalizing adj with
  | nil => cases hdst
  | cons s ss ih =>
    rcases List.mem_cons.mp hdst with hv | hv
    · subst hv
      unfold topic_inner
      rw [List.foldl_cons]
      rw [if_neg hne, if_pos hint]
      exact foldl_mem_pres _ (topic_step_mem src sp) ss _ _ _ (adj_get_add_self _ hkey)
    · unfold topic_inner at ih ⊢
      rw [List.foldl_cons]
      exact ih _ hv (by rw [topic_step_keys]; exact hkey)

lemma service_inner_adds (c : Node) (cu : List Str) (vals : List Node)
    (adj : List (Str × List Str)) (v : Node) (hv : v ∈ vals)
    (hne : v.name ≠ c.name)
    (hint : inter_nonempty cu (effective_provides v) = true)
    (hkc : c.name ∈ adj.map Prod.fst) (hkv : v.name ∈ adj.map Prod.fst) :
    v.name ∈ adj_get (service_inner c cu adj vals) c.name ∧
      c.name ∈ adj_get (service_inner c cu adj vals) v.name := by
  induction vals generalizing adj with
  | nil => cases hv
  | cons s ss ih =>
    rcases List.mem_cons.mp hv with hs | hs
    · subst hs
      unfold service_inner
      rw [List.foldl_cons]
      rw [if_neg hne, if_pos hint]
      constructor
      · exact foldl_mem_pres _ (service_step_mem c cu) ss _ _ _
          (mem_adj_get_add _ _ (adj_get_add_self _ hkc))
      · exact foldl_mem_pres _ (service_step_mem c cu) ss _ _ _
          (adj_get_add_self _ (by rw [adj_add_keys]; exact hkv))
    · unfold service_inner at ih ⊢
      rw [List.foldl_cons]
      exact ih _ hs (by rw [service_step_keys]; exact hkc)
        (by rw [service_step_keys]; exact hkv)

lemma topic_pass_keys (vals : List Node) (adj : List (Str × List Str)) :
    (topic_pass vals adj).map Prod.fst = adj.map Prod.fst := by
  unfold topic_pass
  apply foldl_keys_pres
  intro adj src
  by_cases h1 : effective_publishes src = []
  · rw [if_pos h1]
  · rw [if_neg h1, topic_inner_keys]

lemma service_pass_keys (vals : List Node) (adj : List (Str × List Str)) :
    (service_pass vals adj).map Prod.fst = adj.map Prod.fst := by
  unfold service_pass
  apply foldl_keys_pres
  intro adj c
  by_cases h1 : effective_uses c = []
  · rw [if_pos h1]
  · rw [if_neg h1, service_inner_keys]

lemma topic_pass_mem (vals : List Node) (adj : List (Str × List Str)) (k x : Str)
    (h : x ∈ adj_get adj k) : x ∈ adj_get (topic_pass vals adj) k := by
  unfold topic_pass
  apply foldl_mem_pres _ _ vals adj k x h
  intro adj src k' x' h'
  by_cases h1 : effective_publishes src = []
  · rwa [if_pos h1]
  · rw [if_neg h1]
    exact topic_inner_mem _ _ _ _ _ _ h'

lemma service_pass_mem (vals : List Node) (adj : List (Str × List Str)) (k x : Str)
    (h : x ∈ adj_get adj k) : x ∈ adj_get (service_pass vals adj) k := by
  unfold service_pass
  apply foldl_mem_pres _ _ vals adj k x h
  intro adj c k' x' h'
  by_cases h1 : effective_uses c = []
  · rwa [if_pos h1]
  · rw [if_neg h1]
    exact service_inner_mem _ _ _ _ _ _ h'

lemma topic_fold_adds (vals clients : List Node) (adj : List (Str × List Str))
    (src dst : Node) (hsrc : src ∈ clients) (hdst : dst ∈ vals)
    (hne : src.name ≠ dst.name)
    (hint : inter_nonempty (effective_publishes src) (effective_subscribes dst) = true)
    (hkey : src.name ∈ adj.map Prod.fst) :
    dst.name ∈ adj_get (clients.foldl (fun adj s =>
      if effective_publishes s = [] then adj
      else topic_inner s (effective_publishes s) adj vals) adj) src.name := by
  have hstep_keys : ∀ (adj : List (Str × List Str)) (s : Node),
      (if effective_publishes s = [] then adj
        else topic_inner s (effective_publishes s) adj vals).map Prod.fst = adj.map Prod.fst := by
    intro adj s
    by_cases h1 : effective_publishes s = []
    · rw [if_pos h1]
    · rw [if_neg h1, topic_inner_keys]
  have hstep_mem : ∀ (adj : List (Str × List Str)) (s : Node) (k x : Str),
      x ∈ adj_get adj k →
      x ∈ adj_get (if effective_publishes s = [] then adj
        else topic_inner s (effective_publishes s) adj vals) k := by
    intro adj s k x h
    by_cases h1 : effective_publishes s = []
    · rwa [if_pos h1]
    · rw [if_neg h1]
      exact topic_inner_mem _ _ _ _ _ _ h
  have hpub_ne : effective_publishes src ≠ [] := by
    intro hemp
    rw [hemp] at hint
    simp [inter_nonempty] at hint
  induction clients generalizing adj with
  | nil => cases hsrc
  | cons s ss ih =>
    rw [List.foldl_cons]
    rcases List.mem_cons.mp hsrc with hs | hs
    · subst hs
      apply foldl_mem_pres _ hstep_mem ss _ _ _
      rw [if_neg hpub_ne]
      exact topic_inner_adds src (effective_publishes src) vals adj dst hdst hne hint hkey
    · exact ih _ hs (by rw [hstep_keys]; exact hkey)

lemma topic_pass_adds (vals : List Node) (adj : List (Str × List Str))
    (src dst : Node) (hsrc : src ∈ vals) (hdst : dst ∈ vals)
    (hne : src.name ≠ dst.name)
    (hint : inter_nonempty (effective_publishes src) (effective_subscribes dst) = true)
    (hkey : src.name ∈ adj.map Prod.fst) :
    dst.name ∈ adj_get (topic_pass vals adj) src.name :=
  topic_fold_adds vals vals adj src dst hsrc hdst hne hint hkey

lemma service_fold_adds (vals clients : List Node) (adj : List (Str × List Str))
    (c v : Node) (hc : c ∈ clients) (hv : v ∈ vals)
    (hne : v.name ≠ c.name)
    (hint : inter_nonempty (effective_uses c) (effective_provides v) = true)
    (hkc : c.name ∈ adj.map Prod.fst) (hkv : v.name ∈ adj.map Prod.fst) :
    v.name ∈ adj_get (clients.foldl (fun adj cl =>
      if effective_uses cl = [] then adj
      else service_inner cl (effective_uses cl) adj vals) adj) c.name ∧
    c.name ∈ adj_get (clients.foldl (fun adj cl =>
      if effective_uses cl = [] then adj
      else service_inner cl (effective_uses cl) adj vals) adj) v.name := by
  have hstep_keys : ∀ (adj : List (Str × List Str)) (cl : Node),
      (if effective_uses cl = [] then adj
        else service_inner cl (effective_uses cl) adj vals).map Prod.fst = adj.map Prod.fst := by
    intro adj cl
    by_cases h1 : effective_uses cl = []
    · rw [if_pos h1]
    · rw [if_neg h1, service_inner_keys]
  have hstep_mem : ∀ (adj : List (Str × List Str)) (cl : Node) (k x : Str),
      x ∈ adj_get adj k →
      x ∈ adj_get (if effective_uses cl = [] then adj
        else service_inner cl (effective_uses cl) adj vals) k := by
    intro adj cl k x h
    by_cases h1 : effective_uses cl = []
    · rwa [if_pos h1]
    · rw [if_neg h1]
      exact service_inner_mem _ _ _ _ _ _ h
  have huse_ne : effective_uses c ≠ [] := by
    intro hemp
    rw [hemp] at hint
    simp [inter_nonempty] at hint
  induction clients generalizing adj with
  | nil => cases hc
  | cons s ss ih =>
    rw [List.foldl_cons]
    rcases List.mem_cons.mp hc with hs | hs
    · subst hs
      have hadds := service_inner_adds c (effective_uses c) vals adj v hv hne hint hkc hkv
      constructor
      · apply foldl_mem_pres _ hstep_mem ss _ _ _
        rw [if_neg huse_ne]
        exact hadds.1
      · apply foldl_mem_pres _ hstep_mem ss _ _ _
        rw [if_neg huse_ne]
        exact hadds.2
    · exact ih _ hs (by rw [hstep_keys]; exact hkc) (by rw [hstep_keys]; exact hkv)

lemma service_pass_adds (vals : List Node) (adj : List (Str × List Str))
    (c v : Node) (hc : c ∈ vals) (hv : v ∈ vals)
    (hne : v.name ≠ c.name)
    (hint : inter_nonempty (effective_uses c) (effective_provides v) = true)
    (hkc : c.name ∈ adj.map Prod.fst) (hkv : v.name ∈ adj.map Prod.fst) :
    v.name ∈ adj_get (service_pass vals adj) c.name ∧
      c.name ∈ adj_get (service_pass vals adj) v.name :=
  service_fold_adds vals vals adj c v hc hv hne hint hkc hkv

lemma adj_init_keys (g : Graph) : (adj_init g).map Prod.fst = g.nodes.map Prod.fst := by
  unfold adj_init
  rw [List.map_map]
  rfl

lemma build_adjacency_keys (g : Graph) :
    (build_adjacency g).map Prod.fst = g.nodes.map Prod.fst := by
  unfold build_adjacency
  rw [service_pass_keys, topic_pass_keys, adj_init_keys]

lemma build_adjacency_topic_edge (g : Graph) (src dst : Node)
    (hsrc : src ∈ node_vals g) (hdst : dst ∈ node_vals g)
    (hne : src.name ≠ dst.name) (hkey : src.name ∈ g.nodes.map Prod.fst)
    (t : Str) (hpub : t ∈ effective_publishes src) (hsub : t ∈ effective_subscribes dst) :
    dst.name ∈ adj_get (build_adjacency g) src.name := by
  unfold build_adjacency
  apply service_pass_mem
  exact topic_pass_adds _ _ src dst hsrc hdst hne (inter_nonempty_of_mem hpub hsub)
    (by rw [adj_init_keys]; exact hkey)

lemma build_adjacency_service_edge (g : Graph) (c v : Node)
    (hc : c ∈ node_vals g) (hv : v ∈ node_vals g)
    (hne : v.name ≠ c.name)
    (hkc : c.name ∈ g.nodes.map Prod.fst) (hkv : v.name ∈ g.nodes.map Prod.fst)
    (s : Str) (huse : s ∈ effective_uses c) (hprov : s ∈ effective_provides v) :
    v.name ∈ adj_get (build_adjacency g) c.name ∧
      c.name ∈ adj_get (build_adjacency g) v.name := by
  unfold build_adjacency
  apply service_pass_adds _ _ c v hc hv hne (inter_nonempty_of_mem huse hprov)
  · rw [topic_pass_keys, adj_init_keys]
    exact hkc
  · rw [topic_pass_keys, adj_init_keys]
    exact hkv

lemma has_path_of_edge (g : Graph) (src dst : Str) (hne : src ≠ dst)
    (hedge : dst ∈ adj_get (build_adjacency g) src) :
    has_communication_path src dst g = true := by
  unfold has_communication_path
  rw [if_neg hne]
  simp only [bfs_loop]
  rw [if_pos hedge]

lemma foldl_first_writer {β : Type}
    (step : List (Str × β) → (Str × Option Str) → List (Str × β))
    (mk : Str → Option Str → β)
    (hstep : ∀ d e, step d e =
      if (dict_get d e.1).isSome then d else d ++ [(e.1, mk e.1 e.2)])
    (events : List (Str × Option Str)) (d : List (Str × β)) (T : Str) :
    dict_get (events.foldl step d) T =
      match dict_get d T with
      | some w => some w
      | none => first_entity_for mk T events := by
  induction events generalizing d with
  | nil =>
    cases hT : dict_get d T with
    | some w => simp [hT]
    | none => simp [hT, first_entity_for]
  | cons e es ih =>
    rw [List.foldl_cons, hstep]
    by_cases hd : (dict_get d e.1).isSome
    · rw [if_pos hd, ih]
      cases hT : dict_get d T with
      | some w => rfl
      | none =>
        have hne : e.1 ≠ T := by
          intro hEq
          rw [hEq, hT] at hd
          simp at hd
        simp only [first_entity_for, if_neg hne]
    · rw [if_neg hd, ih, dict_get_append_single]
      cases hT : dict_get d T with
      | some w => rfl
      | none =>
        by_cases he : e.1 = T
        · rw [if_pos he]
          simp only [first_entity_for, if_pos he]
        · rw [if_neg he]
          simp only [first_entity_for, if_neg he]

lemma build_nodes_foldl_none (nts : List (Str × NodeType)) (X : Str) :
    ∀ (blocks : List (Str × Str × Str)) (d : List (Str × Node)),
      dict_get d X = none →
      (∀ blk ∈ blocks, blk.1 = X → dict_get nts blk.2.1 = none) →
      dict_get (blocks.foldl (fun d blk =>
        match dict_get nts blk.2.1 with
        | none => d
        | some nt =>
          dict_insert blk.1 ⟨blk.1, nt, parse_param_assigns blk.2.2, parse_remaps blk.2.2⟩ d)
        d) X = none := by
  intro blocks
  induction blocks with
  | nil =>
    intro d hd _
    exact hd
  | cons blk bs ih =>
    intro d hd hall
    rw [List.foldl_cons]
    cases hnt : dict_get nts blk.2.1 with
    | none =>
      simp only [hnt]
      exact ih d hd (fun b hb hX => hall b (by simp [hb]) hX)
    | some nt =>
      simp only [hnt]
      have hne : blk.1 ≠ X := by
        intro hEq
        rw [hall blk (by simp) hEq] at hnt
        cases hnt
      exact ih _ (by rw [dict_get_insert_ne _ _ _ _ hne]; exact hd)
        (fun b hb hX => hall b (by simp [hb]) hX)

end Lemmas

/-! Concrete instances used by counterexamples and witnesses. -/

/-- A node type consuming one content-indirected service via parameter `p`. -/
def c1_nt : NodeType :=
  ⟨"NT".data, [], [], [], [], [("<content>".data, "p".data, some "T".data)]⟩

/-- Node assigning `p` the literal (unquoted) string `content(p)`. -/
def c1_node_bad : Node :=
  ⟨"n".data, c1_nt, [("p".data, ⟨"p".data, "content(p)".data⟩)], []⟩

/-- A node type with one explicit use and one content-indirected service. -/
def c1_nt_good : NodeType :=
  ⟨"NTg".data, [], [], [], [("/s".data, some "S".data)],
    [("<content>".data, "p".data, some "T".data)]⟩

/-- Node assigning `p = "/real"` (quoted), with a remap written against the
unresolved placeholder. -/
def c1_node_good : Node :=
  ⟨"ng".data, c1_nt_good, [("p".data, ⟨"p".data, "\x22/real\x22".data⟩)],
    [⟨"content(p)".data, "/evil".data⟩]⟩

/-- A node type publishing to the content-indirected name `content(p)`. -/
def c2_nt : NodeType :=
  ⟨"NT2".data, [("content(p)".data, some "T".data)], [], [], [], []⟩

/-- Node assigning `p` the literal placeholder string itself, plus a remap
from the placeholder. -/
def c2_node_bad : Node :=
  ⟨"n2".data, c2_nt, [("p".data, ⟨"p".data, "content(p)".data⟩)],
    [⟨"content(p)".data, "/elsewhere".data⟩]⟩

/-- Node assigning `p = "/real"`, plus a remap from the unresolved placeholder
that must not fire. -/
def c2_node_good : Node :=
  ⟨"n2g".data, c2_nt, [("p".data, ⟨"p".data, "\x22/real\x22".data⟩)],
    [⟨"content(p)".data, "/evil".data⟩]⟩

/-- Publisher node type for the topic demo graph. -/
def topic_nt_p : NodeType := ⟨"P".data, [("/t".data, some "M".data)], [], [], [], []⟩

/-- Subscriber node type for the topic demo graph. -/
def topic_nt_q : NodeType := ⟨"Q".data, [], [("/t".data, some "M".data)], [], [], []⟩

/-- Publisher instance `p`. -/
def topic_node_p : Node := ⟨"p".data, topic_nt_p, [], []⟩

/-- Subscriber instance `q`. -/
def topic_node_q : Node := ⟨"q".data, topic_nt_q, [], []⟩

/-- Two nodes joined only by the topic `/t`, publisher `p`, subscriber `q`. -/
def topic_demo_graph : Graph :=
  ⟨[("p".data, topic_node_p), ("q".data, topic_node_q)],
    [("P".data, topic_nt_p), ("Q".data, topic_nt_q)],
    [("/t".data, ⟨"/t".data, some "M".data⟩)], []⟩

/-- Provider node type for the service demo graph. -/
def svc_nt_s : NodeType := ⟨"S".data, [], [], [("/srv".data, some "Sv".data)], [], []⟩

/-- Client node type for the service demo graph. -/
def svc_nt_c : NodeType := ⟨"C".data, [], [], [], [("/srv".data, some "Sv".data)], []⟩

/-- Provider instance `s`. -/
def svc_node_s : Node := ⟨"s".data, svc_nt_s, [], []⟩

/-- Client instance `c`. -/
def svc_node_c : Node := ⟨"c".data, svc_nt_c, [], []⟩

/-- Two nodes joined only by the service `/srv`, provider `s`, client `c`. -/
def svc_demo_graph : Graph :=
  ⟨[("s".data, svc_node_s), ("c".data, svc_node_c)],
    [("S".data, svc_nt_s), ("C".data, svc_nt_c)],
    [], [("/srv".data, ⟨"/srv".data, some "Sv".data⟩)]⟩

/-! Claim theorems. -/

/-- Claim C1, counterexample to the claim as stated: the node assigns
parameter `p` (to the literal string `content(p)`, unquoted), yet
`effective_uses` still contains the literal string `content(p)` — the claim's
"does not contain" part fails, because the assigned value itself resolves to
the placeholder string. -/
theorem c1_counterexample :
    (dict_get c1_node_bad.param_assigns "p".data).isSome = true ∧
      content_ph "p".data ∈ effective_uses c1_node_bad := by
  decide

/-- Claim C1 (amended): for a node whose type declares
`consumes service content(p) : T`, if `p` is assigned then `effective_uses`
contains the assigned value with quotes stripped and remaps applied, and it
does not contain the literal placeholder `content(p)` provided no declared or
assigned name itself resolves (after quote-stripping and remapping) to that
literal string; if `p` is unassigned, `effective_uses` contains the literal
placeholder `content(p)` for that declaration. -/
theorem c1_content_resolution (n : Node) (ph p : Str) (typ : Option Str)
    (hmem : (ph, p, typ) ∈ n.node_type.consumes_content_services) :
    (∀ v : ParameterAssign, dict_get n.param_assigns p = some v →
      apply_remaps (strip_quotes v.value) n ∈ effective_uses n) ∧
    (dict_get n.param_assigns p = none → content_ph p ∈ effective_uses n) ∧
    (∀ v : ParameterAssign, dict_get n.param_assigns p = some v →
      (∀ pr ∈ n.node_type.uses, apply_remaps (resolve_content_name pr.1 n) n ≠ content_ph p) →
      (∀ tr ∈ n.node_type.consumes_content_services, ∀ a : ParameterAssign,
        dict_get n.param_assigns tr.2.1 = some a →
        apply_remaps (strip_quotes a.value) n ≠ content_ph p) →
      content_ph p ∉ effective_uses n) := by
  refine ⟨?_, ?_, ?_⟩
  · intro v hv
    have hcon : consumes_contribution n (ph, p, typ) = apply_remaps (strip_quotes v.value) n := by
      simp only [consumes_contribution, hv]
    rw [← hcon]
    exact List.mem_append_right _ (List.mem_map_of_mem _ hmem)
  · intro hv
    have hcon : consumes_contribution n (ph, p, typ) = content_ph p := by
      simp only [consumes_contribution, hv]
    rw [← hcon]
    exact List.mem_append_right _ (List.mem_map_of_mem _ hmem)
  · intro v hv h1 h2 hmem_ph
    rcases List.mem_append.mp hmem_ph with hL | hR
    · rcases List.mem_map.mp hL with ⟨pr, hpr, heq⟩
      exact h1 pr hpr heq
    · rcases List.mem_map.mp hR with ⟨tr, htr, heq⟩
      cases ha : dict_get n.param_assigns tr.2.1 with
      | some a =>
        simp only [consumes_contribution, ha] at heq
        exact h2 tr htr a ha heq
      | none =>
        simp only [consumes_contribution, ha] at heq
        rw [content_ph_inj heq, hv] at ha
        cases ha

/-- Claim C1 witness: on a concrete node assigning `p = "/real"` (and with a
placeholder remap and an explicit use present), the resolved value is in
`effective_uses` and the placeholder is not. -/
theorem c1_witness :
    apply_remaps (strip_quotes "\x22/real\x22".data) c1_node_good ∈ effective_uses c1_node_good ∧
      content_ph "p".data ∉ effective_uses c1_node_good := by
  have h := c1_content_resolution c1_node_good "<content>".data "p".data (some "T".data)
    (by decide)
  exact ⟨h.1 ⟨"p".data, "\x22/real\x22".data⟩ (by decide),
    h.2.2 ⟨"p".data, "\x22/real\x22".data⟩ (by decide) (by decide) (by decide)⟩

/-- Claim C2, counterexample to the claim as stated: parameter `p` is
assigned (to the literal string `content(p)`), a remap from the unresolved
placeholder exists, and that remap fires anyway — because the substituted
concrete name happens to equal the placeholder string.  The only effective
publish name is the remap target. -/
theorem c2_counterexample :
    (dict_get c2_node_bad.param_assigns "p".data).isSome = true ∧
      c2_node_bad.remaps = [⟨content_ph "p".data, "/elsewhere".data⟩] ∧
      effective_publishes c2_node_bad = ["/elsewhere".data] := by
  decide

/-- Claim C2 (amended): the effective-binding computation substitutes
`content(<param>)` first and only then applies remaps to the resolved name;
consequently, when the parameter is assigned, remaps match the concrete
substituted name — a remap whose from-name equals the unresolved placeholder
does not fire unless the substituted name is itself that literal placeholder
string (in particular, whenever no remap's from-name equals the substituted
name, the substituted name survives unchanged). -/
theorem c2_resolve_then_remap (n : Node) (raw p : Str) (typ : Option Str)
    (v : ParameterAssign)
    (hmem : (raw, typ) ∈ n.node_type.publishes)
    (hp : maybe_content_param raw = some p)
    (hv : dict_get n.param_assigns p = some v) :
    apply_remaps (strip_quotes v.value) n ∈ effective_publishes n ∧
      ((∀ r ∈ n.remaps, r.frm ≠ strip_quotes v.value) →
        strip_quotes v.value ∈ effective_publishes n) := by
  have hres : resolve_content_name raw n = strip_quotes v.value := by
    simp only [resolve_content_name, hp, hv]
  constructor
  · rw [← hres]
    exact List.mem_map_of_mem _ hmem
  · intro hnr
    have h1 : apply_remaps (strip_quotes v.value) n = strip_quotes v.value :=
      apply_remap_list_no_match n.remaps _ hnr
    rw [← h1, ← hres]
    exact List.mem_map_of_mem _ hmem

/-- Claim C2 witness: on a concrete node assigning `p = "/real"` with a remap
written against the unresolved placeholder, the effective publish name is the
substituted `/real`, untouched by that remap. -/
theorem c2_witness :
    strip_quotes "\x22/real\x22".data ∈ effective_publishes c2_node_good := by
  exact (c2_resolve_then_remap c2_node_good "content(p)".data "p".data (some "T".data)
    ⟨"p".data, "\x22/real\x22".data⟩ (by decide) (by decide) (by decide)).2 (by decide)

/-- Specification text declaring topic `/t` first (textually) as a subscribe
with type `A`, then as a publish with type `B`. -/
def c3_text : Str :=
  "node type N \x7b subscribes to /t : A; publishes to /t : B; \x7d".data

/-- Claim C3, counterexample to the claim as stated: this text declares `/t`
twice with types `A` then `B` in textual order, yet the stored type is `B`,
because `_parse_node_types` runs the `publishes` pass of a block before its
`subscribes` pass — "first declaration encountered during parsing" is not
textual order across statement kinds. -/
theorem c3_counterexample :
    dict_get (load_graph_from_rospec c3_text).topics "/t".data =
        some ⟨"/t".data, some "B".data⟩ ∧
      some (Topic.mk "/t".data (some "B".data)) ≠ some (Topic.mk "/t".data (some "A".data)) := by
  decide

/-- Claim C3 (amended): a Topic (likewise a Service) is created at most once
per name, by the first registration event in the parser's processing order —
blocks in text order, within a block all `publishes` before all `subscribes`
(for services, all `provides` before all `uses`) — and later declarations of
the same name never alter the stored type: the final map entry for any name
equals exactly the first event carrying that name.  When both declarations
are of the same statement kind (or lie in different blocks), this coincides
with textual order, and a text declaring `T` with types `A` then `B` yields
type `A`. -/
theorem c3_first_writer_wins (raw T : Str) :
    dict_get (load_graph_from_rospec raw).topics T =
        first_topic_for T (topic_events (preprocess raw)) ∧
      dict_get (load_graph_from_rospec raw).services T =
        first_service_for T (service_events (preprocess raw)) := by
  constructor
  · show dict_get (topics_of (preprocess raw)) T = _
    unfold topics_of
    rw [foldl_first_writer insert_topic Topic.mk (fun d e => rfl)]
    rfl
  · show dict_get (services_of (preprocess raw)) T = _
    unfold services_of
    rw [foldl_first_writer insert_service Service.mk (fun d e => rfl)]
    rfl

/-- Same-kind declaration text: `/t` published twice, types `A` then `B`. -/
def c3_text_same_kind : Str :=
  "node type N \x7b publishes to /t : A; \x7d node type M \x7b publishes to /t : B; \x7d".data

/-- Claim C3 witness-style instance of the amended statement: with both
declarations of the same kind, the textually first type `A` wins. -/
theorem c3_witness :
    dict_get (load_graph_from_rospec c3_text_same_kind).topics "/t".data =
        first_topic_for "/t".data (topic_events (preprocess c3_text_same_kind)) ∧
      dict_get (load_graph_from_rospec c3_text_same_kind).topics "/t".data =
        some ⟨"/t".data, some "A".data⟩ :=
  ⟨(c3_first_writer_wins c3_text_same_kind "/t".data).1, by decide⟩

/-- Claim C4: service links are symmetric — a shared resolved service name
between `effective_provides(A)` and `effective_uses(B)` (distinct nodes of
the graph) makes both `reachable(A,B)` and `reachable(B,A)` true, because
`_build_adjacency` adds both `client → server` and `server → client`; topic
links are directed — a shared resolved topic name makes `reachable(P,Q)`
true, while in the minimal publisher/subscriber graph with no other link
`reachable(Q,P)` is false. -/
theorem c4_service_symmetric_topic_directed :
    (∀ (g : Graph) (A B : Str) (a b : Node) (s : Str),
      nodes_keyed g → A ≠ B → (A, a) ∈ g.nodes → (B, b) ∈ g.nodes →
      s ∈ effective_provides a → s ∈ effective_uses b →
      has_communication_path A B g = true ∧ has_communication_path B A g = true) ∧
    (∀ (g : Graph) (P Q : Str) (pn qn : Node) (t : Str),
      nodes_keyed g → P ≠ Q → (P, pn) ∈ g.nodes → (Q, qn) ∈ g.nodes →
      t ∈ effective_publishes pn → t ∈ effective_subscribes qn →
      has_communication_path P Q g = true) ∧
    (has_communication_path "p".data "q".data topic_demo_graph = true ∧
      has_communication_path "q".data "p".data topic_demo_graph = false) := by
  refine ⟨?_, ?_, by decide, by decide⟩
  · intro g A B a b s hkeyed hAB hA hB hprov huse
    have hAa : A = a.name := hkeyed (A, a) hA
    have hBb : B = b.name := hkeyed (B, b) hB
    have hav : a ∈ node_vals g := List.mem_map_of_mem (fun pr => pr.2) hA
    have hbv : b ∈ node_vals g := List.mem_map_of_mem (fun pr => pr.2) hB
    have hka : a.name ∈ g.nodes.map Prod.fst := by
      rw [← hAa]
      exact List.mem_map_of_mem Prod.fst hA
    have hkb : b.name ∈ g.nodes.map Prod.fst := by
      rw [← hBb]
      exact List.mem_map_of_mem Prod.fst hB
    have hne : a.name ≠ b.name := by
      rw [← hAa, ← hBb]
      exact hAB
    have hedge := build_adjacency_service_edge g b a hbv hav hne hkb hka s huse hprov
    constructor
    · apply has_path_of_edge g A B hAB
      rw [hAa, hBb]
      exact hedge.2
    · apply has_path_of_edge g B A (Ne.symm hAB)
      rw [hAa, hBb]
      exact hedge.1
  · intro g P Q pn qn t hkeyed hPQ hP hQ hpub hsub
    have hPp : P = pn.name := hkeyed (P, pn) hP
    have hQq : Q = qn.name := hkeyed (Q, qn) hQ
    have hpv : pn ∈ node_vals g := List.mem_map_of_mem (fun pr => pr.2) hP
    have hqv : qn ∈ node_vals g := List.mem_map_of_mem (fun pr => pr.2) hQ
    have hkp : pn.name ∈ g.nodes.map Prod.fst := by
      rw [← hPp]
      exact List.mem_map_of_mem Prod.fst hP
    have hne : pn.name ≠ qn.name := by
      rw [← hPp, ← hQq]
      exact hPQ
    apply has_path_of_edge g P Q hPQ
    rw [hPp, hQq]
    exact build_adjacency_topic_edge g pn qn hpv hqv hne hkp t hpub hsub

/-- Claim C4 witness: on the two concrete demo graphs, the service link is
reachable in both directions and the topic link in the forward direction. -/
theorem c4_witness :
    has_communication_path "s".data "c".data svc_demo_graph = true ∧
      has_communication_path "c".data "s".data svc_demo_graph = true ∧
      has_communication_path "p".data "q".data topic_demo_graph = true := by
  refine ⟨?_, ?_, ?_⟩
  · exact (c4_service_symmetric_topic_directed.1 svc_demo_graph "s".data "c".data
      svc_node_s svc_node_c "/srv".data (by decide) (by decide) (by decide) (by decide)
      (by decide) (by decide)).1
  · exact (c4_service_symmetric_topic_directed.1 svc_demo_graph "s".data "c".data
      svc_node_s svc_node_c "/srv".data (by decide) (by decide) (by decide) (by decide)
      (by decide) (by decide)).2
  · exact c4_service_symmetric_topic_directed.2.1 topic_demo_graph "p".data "q".data
      topic_node_p topic_node_q "/t".data (by decide) (by decide) (by decide) (by decide)
      (by decide) (by decide)

/-- Server type whose provides declaration is the literal name `content(p)`
with no assignment anywhere, so its effective provides is the unresolved
placeholder itself. -/
def c5_nt_server : NodeType :=
  ⟨"TS".data, [], [], [("content(p)".data, some "T".data)], [], []⟩

/-- Client type consuming a content service via the unassigned parameter
`p`. -/
def c5_nt_client : NodeType :=
  ⟨"TC".data, [], [], [], [], [("<content>".data, "p".data, some "T".data)]⟩

/-- Server instance of `c5_nt_server` with no assignments. -/
def c5_node_server : Node := ⟨"s5".data, c5_nt_server, [], []⟩

/-- Client instance of `c5_nt_client` with no assignments. -/
def c5_node_client : Node := ⟨"c5".data, c5_nt_client, [], []⟩

/-- Graph whose only shared name is the unresolved placeholder
`content(p)` on both sides of the service intersection. -/
def c5_graph : Graph :=
  ⟨[("c5".data, c5_node_client), ("s5".data, c5_node_server)],
    [("TC".data, c5_nt_client), ("TS".data, c5_nt_server)], [], []⟩

/-- Claim C5, counterexample to the claim as stated: both sides of the
service intersection carry the identical unresolved placeholder
`content(p)` — the client via an unassigned consumes parameter, the server
via an unresolved `provides service content(p)` declaration — and
`_build_adjacency` does create an edge from it, making the pair reachable. -/
theorem c5_counterexample :
    content_ph "p".data ∈ effective_uses c5_node_client ∧
      content_ph "p".data ∈ effective_provides c5_node_server ∧
      "s5".data ∈ adj_get (build_adjacency c5_graph) "c5".data ∧
      has_communication_path "c5".data "s5".data c5_graph = true := by
  decide

/-- Claim C5 (amended): an unresolved placeholder `content(<param>)` never
equals a concrete endpoint name — one that does not itself match the
`content(...)` pattern — so against a node all of whose effective provides
(and subscribes) are such concrete names the placeholder contributes nothing
to the intersection; a placeholder can only produce an edge when the other
side exposes the identical placeholder string. -/
theorem c5_placeholder_no_real_match (v : Node) (p : Str) (hp : p ≠ [])
    (hw : ∀ c ∈ p, is_word c = true)
    (hprov : ∀ m ∈ effective_provides v, maybe_content_param m = none)
    (hsub : ∀ m ∈ effective_subscribes v, maybe_content_param m = none) :
    content_ph p ∉ effective_provides v ∧ content_ph p ∉ effective_subscribes v := by
  have hph := maybe_content_param_ph p hp hw
  constructor
  · intro hmem
    have hnone := hprov _ hmem
    rw [hph] at hnone
    cases hnone
  · intro hmem
    have hnone := hsub _ hmem
    rw [hph] at hnone
    cases hnone

/-- Claim C5 witness: the placeholder `content(p)` is not among the concrete
effective names of the demo provider node. -/
theorem c5_witness :
    content_ph "p".data ∉ effective_provides svc_node_s ∧
      content_ph "p".data ∉ effective_subscribes svc_node_s :=
  c5_placeholder_no_real_match svc_node_s "p".data (by decide) (by decide)
    (by decide) (by decide)

/-- Claim C6: a reachability query whose source equals its destination always
answers false — `_has_communication_path` returns immediately on
`src == dst`, regardless of any edges incident to the node. -/
theorem c6_self_unreachable (g : Graph) (x : Str) :
    has_communication_path x x g = false := by
  unfold has_communication_path
  rw [if_pos rfl]

/-- Claim C7: a node-instance block whose referenced type name misses the
parsed node-types map is dropped entirely by the instance loop — it
contributes nothing to the nodes map, while parsing continues with the
remaining blocks; consequently a name all of whose instance blocks reference
unknown types is absent from `graph.nodes`.  (`build_nodes` is exactly the
instance loop of `_parse_system_instances`, and
`(load_graph_from_rospec raw).nodes` is `build_nodes` applied to the parsed
node types and instance blocks.) -/
theorem c7_unknown_type_dropped (nts : List (Str × NodeType))
    (blocks : List (Str × Str × Str)) (X : Str)
    (h : ∀ blk ∈ blocks, blk.1 = X → dict_get nts blk.2.1 = none) :
    dict_get (build_nodes nts blocks) X = none := by
  unfold build_nodes
  exact build_nodes_foldl_none nts X blocks [] rfl h

/-- Claim C7 witness: a concrete instance block referencing the unknown type
`U` among a parsed map containing only `P`; the instance name is absent from
the nodes map, while a second block with a known type is still processed. -/
theorem c7_witness :
    dict_get (build_nodes [("P".data, topic_nt_p)]
      [("a".data, "U".data, "".data), ("b".data, "P".data, "".data)]) "a".data = none ∧
    (dict_get (build_nodes [("P".data, topic_nt_p)]
      [("a".data, "U".data, "".data), ("b".data, "P".data, "".data)]) "b".data).isSome = true :=
  ⟨c7_unknown_type_dropped [("P".data, topic_nt_p)]
      [("a".data, "U".data, "".data), ("b".data, "P".data, "".data)] "a".data (by decide),
    by decide⟩

/-- Specification text with node types but no system block at all. -/
def c8_text : Str := "node type N \x7b publishes to /t : M; \x7d".data

/-- Claim C8: parsing is a total function — it returns a `Graph` for every
input text, unrecognized statements simply never match any pattern — and an
entirely absent `system` block yields an empty nodes map rather than an
error (`_parse_system_instances` returns immediately when the search fails). -/
theorem c8_no_system_block_empty_nodes (raw : Str)
    (h : system_body_of (preprocess raw) = none) :
    (load_graph_from_rospec raw).nodes = [] := by
  show build_nodes (parse_node_types (preprocess raw)) (instance_blocks_of (preprocess raw)) = []
  unfold instance_blocks_of
  rw [h]
  rfl

/-- Claim C8 witness: a concrete text without a system block parses to a
graph with no nodes. -/
theorem c8_witness : (load_graph_from_rospec c8_text).nodes = [] :=
  c8_no_system_block_empty_nodes c8_text (by decide)

/-- Claim C9: parsing is deterministic — it is a pure function of the text,
so two runs on the same text produce graphs with identical entity maps and
field values; the embedded parse/resolve/reachability pipeline contains no
randomness. -/
theorem c9_parse_deterministic (raw1 raw2 : Str) (h : raw1 = raw2) :
    (load_graph_from_rospec raw1).nodes = (load_graph_from_rospec raw2).nodes ∧
      (load_graph_from_rospec raw1).node_types = (load_graph_from_rospec raw2).node_types ∧
      (load_graph_from_rospec raw1).topics = (load_graph_from_rospec raw2).topics ∧
      (load_graph_from_rospec raw1).services = (load_graph_from_rospec raw2).services := by
  subst h
  exact ⟨rfl, rfl, rfl, rfl⟩

/-- Claim C9 witness: two runs on the same concrete text agree on every
entity map. -/
theorem c9_witness :
    (load_graph_from_rospec c8_text).nodes = (load_graph_from_rospec c8_text).nodes ∧
      (load_graph_from_rospec c8_text).node_types = (load_graph_from_rospec c8_text).node_types ∧
      (load_graph_from_rospec c8_text).topics = (load_graph_from_rospec c8_text).topics ∧
      (load_graph_from_rospec c8_text).services = (load_graph_from_rospec c8_text).services :=
  c9_parse_deterministic c8_text c8_text rfl

/-- Claim C10: querying a source name that is not a key of `graph.nodes`
answers false for every other destination and raises nothing: the adjacency
is keyed by exactly the node names, the BFS neighbour lookup defaults a
missing entry to the empty set, so the frontier empties immediately. -/
theorem c10_missing_source_unreachable (g : Graph) (src dst : Str)
    (hmiss : dict_get g.nodes src = none) (hne : src ≠ dst) :
    has_communication_path src dst g = false := by
  unfold has_communication_path
  rw [if_neg hne]
  have hkey : src ∉ (build_adjacency g).map Prod.fst := by
    rw [build_adjacency_keys]
    exact (dict_get_eq_none_iff _ _).mp hmiss
  have hempty : adj_get (build_adjacency g) src = [] := adj_get_of_not_key _ _ hkey
  simp only [bfs_loop, hempty]
  rw [if_neg (List.not_mem_nil dst)]
  simp only [enqueue_all]
  cases hl : g.nodes.length with
  | zero => rfl
  | succ m => rfl

/-- Claim C10 witness: a ghost source name absent from the demo graph is
unreachable to an existing node. -/
theorem c10_witness :
    has_communication_path "ghost".data "p".data topic_demo_graph = false :=
  c10_missing_source_unreachable topic_demo_graph "ghost".data "p".data
    (by decide) (by decide)

end Rosqa
